import Mathlib

/-
Verification of the Docs-Grabber extraction core.

The development shallowly embeds the two Python modules:
  * config.py    — the file classifiers (is_markdown_file, is_code_file,
                   is_binary_or_generated_file) and filter_files;
  * docs_grabber.py — DocsGrabberThread.run, the extraction pipeline.

Python strings become Lean String, byte contents become List Nat, the
filesystem tree fetched by the clone step becomes the inductive FSTree.
External effects (the git clone outcome, per-file I/O failures, the
manifest write outcome, the name tempfile.mkdtemp returned) are inputs
of the model, supplied in a RunEnv record.
-/

namespace DocsGrabber

/-! ## String utilities mirroring the Python primitives used by the code -/

/-- Python `str.lower` restricted to ASCII letters; the extension tables the
code compares against are ASCII, so this matches `str.lower` on every
comparison the program performs. -/
def lowerChar (c : Char) : Char :=
  if 'A' ≤ c ∧ c ≤ 'Z' then Char.ofNat (c.toNat + 32) else c

/-- Lowercasing of a whole string (`filename.lower()`). -/
def lowerStr (s : String) : String := String.mk (s.data.map lowerChar)

/-- Boolean test that the first list is an initial segment of the second. -/
def isPref : List Char → List Char → Bool
  | [], _ => true
  | _ :: _, [] => false
  | a :: as, b :: bs => if a = b then isPref as bs else false

/-- Python `s.endswith(suffix)`. -/
def strEndsWith (s suffix : String) : Bool :=
  isPref suffix.data.reverse s.data.reverse

/-- Occurrence of `pat` as a contiguous segment of `s`
(Python `pat in s` on strings). -/
def hasSub (pat : List Char) : List Char → Bool
  | [] => pat.isEmpty
  | c :: rest => isPref pat (c :: rest) || hasSub pat rest

/-- String version of `hasSub`. -/
def hasSubStr (pat s : String) : Bool := hasSub pat.data s.data

/-! ## config.py — the three classifier predicates -/

/-- The extension list of `is_markdown_file` in config.py. -/
def markdown_extensions : List String := [".md", ".mdx"]

/-- config.py `is_markdown_file`: `any(filename.lower().endswith(ext) ...)`. -/
def is_markdown_file (filename : String) : Bool :=
  markdown_extensions.any (fun ext => strEndsWith (lowerStr filename) ext)

/-- The extension list of `is_code_file` in config.py, transcribed in order. -/
def code_extensions : List String :=
  [".py", ".js", ".jsx", ".ts", ".tsx", ".java", ".c", ".cpp", ".cs", ".go",
   ".rb", ".php", ".swift", ".kt", ".rs", ".scala", ".sh", ".bash", ".ps1",
   ".pl", ".lua", ".r",
   ".html", ".htm", ".css", ".scss", ".sass", ".less",
   ".json", ".xml", ".yaml", ".yml",
   ".gradle", ".sbt", ".make", ".cmake", ".toml", ".ini", ".conf",
   ".class", ".jar", ".war", ".dll", ".exe", ".so", ".o", ".obj", ".pyc",
   ".dockerfile", ".containerfile",
   ".sql", ".db", ".sqlite"]

/-- config.py `is_code_file`. -/
def is_code_file (filename : String) : Bool :=
  code_extensions.any (fun ext => strEndsWith (lowerStr filename) ext)

/-- The `binary_extensions` list of `is_binary_or_generated_file`,
transcribed in order (including the entries that contain upper-case
letters exactly as the source spells them). -/
def binary_extensions : List String :=
  [".bin", ".dat", ".exe", ".dll", ".so", ".dylib", ".class", ".jar", ".war",
   ".ear", ".zip", ".tar", ".gz", ".bz2", ".xz", ".7z", ".rar",
   ".jpg", ".jpeg", ".png", ".gif", ".bmp", ".tiff", ".webp", ".ico", ".svg",
   ".mp3", ".mp4", ".wav", ".flac", ".ogg", ".avi", ".mov", ".mkv", ".webm",
   ".pdf", ".doc", ".docx", ".xls", ".xlsx", ".ppt", ".pptx",
   ".db", ".sqlite", ".mdb",
   ".pyc", ".pyo", ".o", ".obj", ".a", ".lib",
   ".lock", ".yarn-integrity", "package-lock.json", "yarn.lock",
   ".cache", ".DS_Store", "Thumbs.db"]

/-- The `generated_patterns` list of `is_binary_or_generated_file`. -/
def generated_patterns : List String :=
  ["node_modules", "__pycache__", ".git", ".svn", ".hg", ".idea", ".vscode",
   "build", "dist", "target", "out", "bin", "obj"]

/-- The `is_binary` sub-check: `filename.lower().endswith(ext)` over
`binary_extensions`. -/
def binaryExtHit (filename : String) : Bool :=
  binary_extensions.any (fun ext => strEndsWith (lowerStr filename) ext)

/-- The `is_generated` sub-check: `pattern in filename` over
`generated_patterns`.  Note the source applies it to `filename` itself,
not to `filename.lower()`. -/
def generatedHit (filename : String) : Bool :=
  generated_patterns.any (fun pat => hasSubStr pat filename)

/-- config.py `is_binary_or_generated_file`: `is_binary or is_generated`. -/
def is_binary_or_generated_file (filename : String) : Bool :=
  binaryExtHit filename || generatedHit filename

/-! ## docs_grabber.py — the URL parse step

`DocsGrabberThread.run` extracts the components with
`re.search(r'github\.com/([^/]+)/([^/]+)(?:/tree/([^/]+)/(.+))?', url)`.
`re.search` returns the leftmost position at which the whole pattern
matches.  Since `[^/]+` is greedy and can never give back a character that
the following literal `/` could consume, and `(.+)` (greedy, `.` excludes
newline) ends the pattern, the match at a given position is the one
computed by `matchAfterHost` below, and the search is the scan
`searchFrom`. -/

/-- Greedy `[^/]+`/`[^/]*` segment: longest slash-free initial run. -/
def takeNonSlash : List Char → List Char
  | [] => []
  | c :: rest => if c = '/' then [] else c :: takeNonSlash rest

/-- Remainder after `takeNonSlash`: empty, or starts with `'/'`. -/
def dropFromSlash : List Char → List Char
  | [] => []
  | c :: rest => if c = '/' then c :: rest else dropFromSlash rest

/-- Greedy `.+` segment: longest newline-free initial run. -/
def takeNonNewline : List Char → List Char
  | [] => []
  | c :: rest => if c = '\n' then [] else c :: takeNonNewline rest

/-- Match a literal character sequence and return what follows it. -/
def stripPref : List Char → List Char → Option (List Char)
  | [], s => some s
  | _ :: _, [] => none
  | a :: as, b :: bs => if a = b then stripPref as bs else none

/-- The literal `github.com/` that opens the pattern. -/
def ghLit : List Char := ['g', 'i', 't', 'h', 'u', 'b', '.', 'c', 'o', 'm', '/']

/-- The literal `/tree/` that opens the optional group. -/
def treeLit : List Char := ['/', 't', 'r', 'e', 'e', '/']

/-- The optional group `(?:/tree/([^/]+)/(.+))?` evaluated at `r3`:
`none` means the group is absent (its failure never fails the match). -/
def treeOpt (r3 : List Char) : Option (List Char × List Char) :=
  match stripPref treeLit r3 with
  | none => none
  | some r4 =>
      if takeNonSlash r4 = [] then none
      else
        match dropFromSlash r4 with
        | [] => none
        | _ :: r6 =>
            if takeNonNewline r6 = [] then none
            else some (takeNonSlash r4, takeNonNewline r6)

/-- The pattern after the host literal:
`([^/]+)/([^/]+)(?:/tree/([^/]+)/(.+))?`. -/
def matchAfterHost (s : List Char) :
    Option (List Char × List Char × Option (List Char × List Char)) :=
  if takeNonSlash s = [] then none
  else
    match dropFromSlash s with
    | [] => none
    | _ :: r2 =>
        if takeNonSlash r2 = [] then none
        else some (takeNonSlash s, takeNonSlash r2, treeOpt (dropFromSlash r2))

/-- One attempt of the search: the pattern must begin with the literal
`github.com/` at this position. -/
def tryHere (s : List Char) :
    Option (List Char × List Char × Option (List Char × List Char)) :=
  match stripPref ghLit s with
  | none => none
  | some rest => matchAfterHost rest

/-- `re.search`: try every position left to right. -/
def searchFrom : List Char →
    Option (List Char × List Char × Option (List Char × List Char))
  | [] => none
  | c :: rest =>
      match tryHere (c :: rest) with
      | some r => some r
      | none => searchFrom rest

/-- The parsed components of the repository URL, as `run` binds them:
owner/repo from groups 1–2, branch defaulting to `"main"`, subdir
defaulting to `""`. -/
structure RepoRef where
  owner : String
  repoName : String
  branch : String
  subPath : String
deriving DecidableEq

/-- The parse step of `DocsGrabberThread.run` (docs_grabber.py lines 42–51):
`None` models `repo_path_match` being falsy, i.e. the `finished_signal`
"Invalid GitHub URL format" exit. -/
def parseRepoURL (url : String) : Option RepoRef :=
  match searchFrom url.data with
  | none => none
  | some (g1, g2, opt) =>
      some { owner := String.mk g1
             repoName := String.mk g2
             branch := match opt with
               | some (g3, _) => String.mk g3
               | none => "main"
             subPath := match opt with
               | some (_, g4) => String.mk g4
               | none => "" }

/-! ## The filesystem model -/

/-- A directory tree: files carry their byte content. -/
inductive FSTree where
  | file (content : List Nat)
  | dir (entries : List (String × FSTree))

/-- First entry of a directory listing with the given name. -/
def findEntry : List (String × FSTree) → String → Option FSTree
  | [], _ => none
  | (m, t) :: rest, n => if m = n then some t else findEntry rest n

/-- Replace the named entry, or append it (a fresh name lands at the end of
the listing, matching creation order). -/
def setEntry : List (String × FSTree) → String → FSTree → List (String × FSTree)
  | [], n, t => [(n, t)]
  | (m, u) :: rest, n, t =>
      if m = n then (n, t) :: rest else (m, u) :: setEntry rest n t

/-- Resolve a segment path inside a tree (`os.path.exists` navigation). -/
def lookupPath (t : FSTree) : List String → Option FSTree
  | [] => some t
  | s :: rest =>
      match t with
      | .file _ => none
      | .dir es =>
          match findEntry es s with
          | some t2 => lookupPath t2 rest
          | none => none

/-- `os.makedirs(..., exist_ok=True)` on a segment path: create the chain of
directories, keeping anything that already exists. -/
def mkdirp : List String → FSTree → FSTree
  | [], t => t
  | _ :: _, .file c => .file c
  | s :: rest, .dir es =>
      let sub := match findEntry es s with
        | some u => u
        | none => FSTree.dir []
      .dir (setEntry es s (mkdirp rest sub))

/-- `open(target, 'wb')` + write at parent path `segs`, name `n`. -/
def writeFileAt : List String → String → List Nat → FSTree → FSTree
  | [], n, c, .dir es => .dir (setEntry es n (.file c))
  | [], _, _, .file c0 => .file c0
  | s :: rest, n, c, .dir es =>
      let sub := match findEntry es s with
        | some u => u
        | none => FSTree.dir []
      .dir (setEntry es s (writeFileAt rest n c sub))
  | _ :: _, _, _, .file c0 => .file c0

/-! ## Path strings -/

/-- `os.path.join(a, b)` for a relative second component. -/
def joinPath (a b : String) : String := a ++ "/" ++ b

/-- Join a base with a chain of relative segments. -/
def joinAll (base : String) (segs : List String) : String :=
  segs.foldl joinPath base

/-- Join segments with `/` (no base). -/
def joinSegs : List String → String
  | [] => ""
  | [s] => s
  | s :: rest => s ++ "/" ++ joinSegs rest

/-- `os.path.relpath(root, source_dir)`: `"."` at the root itself, else the
slash-joined segments. -/
def relString : List String → String
  | [] => "."
  | segs => joinSegs segs

/-- The `source_file` string `os.path.join(root, file)` for the file `n` in
the walked directory `segs` under the source root `srcRoot`. -/
def srcFile (srcRoot : String) (segs : List String) (n : String) : String :=
  joinPath (joinAll srcRoot segs) n

/-- The `target_file` string `os.path.join(target_dir, rel_path, file)`. -/
def tgtFile (targetDir : String) (segs : List String) (n : String) : String :=
  joinPath (joinPath targetDir (relString segs)) n

/-! ## config.py `filter_files` -/

/-- The per-file decision chain of `filter_files`: `should_copy` starts
`True`; `markdown_only` and `exclude_code` test the bare filename, while
`light_filter` tests `source_file` — the full joined source path. -/
def shouldCopy (mode srcRoot : String) (segs : List String) (n : String) : Bool :=
  if mode = "markdown_only" then is_markdown_file n
  else if mode = "exclude_code" then !is_code_file n
  else if mode = "light_filter" then
    !is_binary_or_generated_file (srcFile srcRoot segs n)
  else true

/-- State threaded through the walk: the destination tree (rooted at
`target_dir`), the `copied_files` accumulator, and the list of directory
paths passed to the per-directory `os.makedirs`. -/
structure CopyOut where
  dest : FSTree
  copied : List String
  dirsMade : List (List String)

/-- The file listing of a directory, in listing order (`os.walk` keeps the
scandir order when splitting files from subdirectories). -/
def fileEntriesOf (es : List (String × FSTree)) : List (String × List Nat) :=
  es.filterMap (fun p => match p.2 with
    | .file c => some (p.1, c)
    | .dir _ => none)

/-- The inner loop of `filter_files` over the files of one directory.
`fails src = true` models the per-file exception (e.g. the source file is
unreadable): the `except` branch logs and moves on, copying nothing.  The
`os.makedirs(os.path.dirname(target_file))` call re-creates the already
existing directory, modelled by the extra `mkdirp`. -/
def copyFilesInDir (mode srcRoot targetDir : String) (fails : String → Bool)
    (segs : List String) : List (String × List Nat) → CopyOut → CopyOut
  | [], st => st
  | (n, c) :: rest, st =>
      let st2 :=
        if shouldCopy mode srcRoot segs n then
          if fails (srcFile srcRoot segs n) then
            { st with dest := mkdirp segs st.dest }
          else
            { dest := writeFileAt segs n c (mkdirp segs st.dest)
              copied := st.copied ++ [tgtFile targetDir segs n]
              dirsMade := st.dirsMade }
        else st
      copyFilesInDir mode srcRoot targetDir fails segs rest st2

/-- The recursion of `os.walk` below one directory: for each subdirectory
(in listing order) create its target directory, process its files, then
descend.  Files of the current directory were already handled by the
caller, matching the top-down yield order of `os.walk`. -/
def walkSubs (mode srcRoot targetDir : String) (fails : String → Bool) :
    List String → List (String × FSTree) → CopyOut → CopyOut
  | _, [], st => st
  | segs, (_, FSTree.file _) :: rest, st =>
      walkSubs mode srcRoot targetDir fails segs rest st
  | segs, (n, FSTree.dir es) :: rest, st =>
      let st1 : CopyOut :=
        { dest := mkdirp (segs ++ [n]) st.dest
          copied := st.copied
          dirsMade := st.dirsMade ++ [segs ++ [n]] }
      let st2 := copyFilesInDir mode srcRoot targetDir fails (segs ++ [n])
        (fileEntriesOf es) st1
      let st3 := walkSubs mode srcRoot targetDir fails (segs ++ [n]) es st2
      walkSubs mode srcRoot targetDir fails segs rest st3

/-- config.py `filter_files(source_dir, target_dir, filter_mode)`, with the
destination state starting from the empty `reference` directory `run` just
created.  `os.walk` of a non-directory yields nothing, so a file source
copies nothing.  The first iteration handles the root (rel_path `"."`):
`os.makedirs` on the root, then its files, then the recursion. -/
def filter_files (mode srcRoot targetDir : String) (fails : String → Bool) :
    FSTree → CopyOut
  | .file _ => ⟨.dir [], [], []⟩
  | .dir es =>
      let st0 : CopyOut := ⟨.dir [], [], [[]]⟩
      let st1 := copyFilesInDir mode srcRoot targetDir fails []
        (fileEntriesOf es) st0
      walkSubs mode srcRoot targetDir fails [] es st1

/-! ## The `filter_mode == "none"` copy branch of `run` -/

/-- `shutil.copytree(..., ignore=shutil.ignore_patterns('.git'))`: at every
level of the recursion the names matching `.git` are skipped entirely. -/
def copytreeIg : List (String × FSTree) → List (String × FSTree)
  | [] => []
  | (n, t) :: rest =>
      if n = ".git" then copytreeIg rest
      else
        match t with
        | .file c => (n, FSTree.file c) :: copytreeIg rest
        | .dir es => (n, FSTree.dir (copytreeIg es)) :: copytreeIg rest

/-- The top-level loop of the `"none"` branch: every `os.listdir` item other
than `".git"` is copied — directories via `shutil.copytree` with the
`.git` ignore pattern, files via `shutil.copy2`. -/
def copyNoneTop : List (String × FSTree) → List (String × FSTree)
  | [] => []
  | (n, t) :: rest =>
      if n = ".git" then copyNoneTop rest
      else
        match t with
        | .file c => (n, FSTree.file c) :: copyNoneTop rest
        | .dir es => (n, FSTree.dir (copytreeIg es)) :: copyNoneTop rest

/-- The whole `"none"` branch.  On a non-directory source `os.listdir`
raises, which the outer `except` of `run` turns into a failed signal. -/
def copyNone : FSTree → Except String FSTree
  | .file _ => .error "NotADirectoryError"
  | .dir es => .ok (.dir (copyNoneTop es))

/-! ## Walk-order views of a source tree, for stating the copy theorems -/

/-- All files below (not in) a directory, tagged with their segment paths,
in `os.walk` top-down order. -/
def allFilesSubs : List String → List (String × FSTree) →
    List (List String × String × List Nat)
  | _, [] => []
  | segs, (_, FSTree.file _) :: rest => allFilesSubs segs rest
  | segs, (n, FSTree.dir es) :: rest =>
      (fileEntriesOf es).map (fun p => (segs ++ [n], p.1, p.2)) ++
        allFilesSubs (segs ++ [n]) es ++ allFilesSubs segs rest

/-- All files of a tree in walk order. -/
def allFiles : FSTree → List (List String × String × List Nat)
  | .file _ => []
  | .dir es =>
      (fileEntriesOf es).map (fun p => (([] : List String), p.1, p.2)) ++
        allFilesSubs [] es

/-- All directory paths strictly below a directory, in walk order. -/
def allDirsSubs : List String → List (String × FSTree) → List (List String)
  | _, [] => []
  | segs, (_, FSTree.file _) :: rest => allDirsSubs segs rest
  | segs, (n, FSTree.dir es) :: rest =>
      (segs ++ [n]) :: (allDirsSubs (segs ++ [n]) es ++ allDirsSubs segs rest)

/-- All directory paths of a directory tree, the root included, in walk
order. -/
def allDirs : List (String × FSTree) → List (List String) :=
  fun es => [] :: allDirsSubs [] es

/-! ## docs_grabber.py `DocsGrabberThread.run` -/

/-- The externals one extraction run interacts with: the prior content of
`{target}/reference` (`none`: absent), the outcome of the `git clone`
subprocess, the per-file I/O failure oracle keyed by source path, whether
the manifest write succeeds, and the directory name `tempfile.mkdtemp`
returned. -/
structure RunEnv where
  prior : Option FSTree
  cloneResult : Except String FSTree
  fails : String → Bool
  manifestOk : Bool
  tempDir : String

/-- The observable outcome of one run: the `finished_signal` payload
(success flag and message), the final content of `{target}/reference`
(`none` if it was never touched and did not exist), the `copied_files`
list `filter_files` returned, whether `ai-instructions.md` was written,
and whether `shutil.rmtree(temp_dir)` ran. -/
structure RunResult where
  success : Bool
  message : String
  refDir : Option FSTree
  copiedPaths : List String
  manifestWritten : Bool
  tempDeleted : Bool

/-- Resolution of `source_dir`: the clone root when no subdir was given,
else `os.path.join(temp_dir, specific_path)` checked with
`os.path.exists` (navigation by the non-empty slash-separated segments). -/
def resolveSource (ref : RepoRef) (tree : FSTree) (tempDir : String) :
    Option (FSTree × String) :=
  if ref.subPath = "" then some (tree, tempDir)
  else
    match lookupPath tree ((ref.subPath.splitOn "/").filter (fun s => s != "")) with
    | some sub => some (sub, joinPath tempDir ref.subPath)
    | none => none

/-- `DocsGrabberThread.run` (docs_grabber.py lines 33–152).  Each early
`return` leaves the temporary clone directory in place: the only
`shutil.rmtree(temp_dir)` sits on the success path, after the manifest
write; an exception (modelled: a manifest write failure, or `os.listdir`
on a non-directory source in the `"none"` branch) jumps to the outer
`except`, which also performs no cleanup. -/
def run (url targetPath filterMode : String) (env : RunEnv) : RunResult :=
  match parseRepoURL url with
  | none =>
      { success := false, message := "Invalid GitHub URL format"
        refDir := env.prior, copiedPaths := [], manifestWritten := false
        tempDeleted := false }
  | some ref =>
      match env.cloneResult with
      | .error e =>
          { success := false, message := "Git clone failed: " ++ e
            refDir := env.prior, copiedPaths := [], manifestWritten := false
            tempDeleted := false }
      | .ok tree =>
          match resolveSource ref tree env.tempDir with
          | none =>
              { success := false
                message := "Specified path '" ++ ref.subPath ++
                  "' not found in repository"
                refDir := env.prior, copiedPaths := []
                manifestWritten := false, tempDeleted := false }
          | some (srcTree, srcPath) =>
              if filterMode = "none" then
                match copyNone srcTree with
                | .error e =>
                    { success := false, message := "Error: " ++ e
                      refDir := some (.dir []), copiedPaths := []
                      manifestWritten := false, tempDeleted := false }
                | .ok destTree =>
                    if env.manifestOk then
                      { success := true
                        message := "Documentation successfully grabbed!"
                        refDir := some destTree, copiedPaths := []
                        manifestWritten := true, tempDeleted := true }
                    else
                      { success := false, message := "Error: manifest write failed"
                        refDir := some destTree, copiedPaths := []
                        manifestWritten := false, tempDeleted := false }
              else
                let out := filter_files filterMode srcPath
                  (joinPath targetPath "reference") env.fails srcTree
                if env.manifestOk then
                  { success := true
                    message := "Documentation successfully grabbed!"
                    refDir := some out.dest, copiedPaths := out.copied
                    manifestWritten := true, tempDeleted := true }
                else
                  { success := false, message := "Error: manifest write failed"
                    refDir := some out.dest, copiedPaths := out.copied
                    manifestWritten := false, tempDeleted := false }

/-! ## Reference shapes used by the theorems below -/

/-- The copy result claim C6 describes: the source listing with only the
version-control metadata directory at the tree's root removed, everything
below kept byte-identical. -/
def removeRootGit (es : List (String × FSTree)) : List (String × FSTree) :=
  es.filter (fun p => p.1 != ".git")

/-- The amended description of the `"none"` copy: the source listing with
every entry named `.git` removed, at every depth. -/
def pruneGit : List (String × FSTree) → List (String × FSTree)
  | [] => []
  | (n, FSTree.file c) :: rest =>
      if n = ".git" then pruneGit rest
      else (n, FSTree.file c) :: pruneGit rest
  | (n, FSTree.dir es) :: rest =>
      if n = ".git" then pruneGit rest
      else (n, FSTree.dir (pruneGit es)) :: pruneGit rest

/-- Acceptance of one walked file: the mode decision holds and the
per-file copy did not fail. -/
def keepFile (mode srcRoot : String) (fails : String → Bool)
    (p : List String × String × List Nat) : Bool :=
  shouldCopy mode srcRoot p.1 p.2.1 && !fails (srcFile srcRoot p.1 p.2.1)

end DocsGrabber

namespace DocsGrabber

/-! ## Basic lemmas about the regex building blocks -/

theorem stripPref_append_self (l t : List Char) : stripPref l (l ++ t) = some t := by
  induction l with
  | nil => rfl
  | cons a as ih => simp [stripPref, ih]

theorem stripPref_some (p s t : List Char) (h : stripPref p s = some t) :
    s = p ++ t := by
  induction p generalizing s with
  | nil => simp [stripPref] at h; simp [h]
  | cons a as ih =>
      cases s with
      | nil => simp [stripPref] at h
      | cons b bs =>
          simp only [stripPref] at h
          by_cases hab : a = b
          · rw [if_pos hab] at h
            subst hab
            simp [ih bs h]
          · rw [if_neg hab] at h
            exact absurd h (by simp)

theorem takeNonSlash_no_slash (g : List Char) (h : ∀ c ∈ g, c ≠ '/') :
    takeNonSlash g = g := by
  induction g with
  | nil => rfl
  | cons a as ih =>
      have ha : ¬ a = '/' := h a (List.mem_cons_self a as)
      simp only [takeNonSlash, if_neg ha]
      rw [ih (fun c hc => h c (List.mem_cons_of_mem a hc))]

theorem takeNonSlash_append_cons (g rest : List Char) (h : ∀ c ∈ g, c ≠ '/') :
    takeNonSlash (g ++ '/' :: rest) = g := by
  induction g with
  | nil => simp [takeNonSlash]
  | cons a as ih =>
      have ha : ¬ a = '/' := h a (List.mem_cons_self a as)
      show takeNonSlash (a :: (as ++ '/' :: rest)) = a :: as
      simp only [takeNonSlash, if_neg ha]
      rw [ih (fun c hc => h c (List.mem_cons_of_mem a hc))]

theorem dropFromSlash_no_slash (g : List Char) (h : ∀ c ∈ g, c ≠ '/') :
    dropFromSlash g = [] := by
  induction g with
  | nil => rfl
  | cons a as ih =>
      have ha : ¬ a = '/' := h a (List.mem_cons_self a as)
      simp only [dropFromSlash, if_neg ha]
      exact ih (fun c hc => h c (List.mem_cons_of_mem a hc))

theorem dropFromSlash_append_cons (g rest : List Char) (h : ∀ c ∈ g, c ≠ '/') :
    dropFromSlash (g ++ '/' :: rest) = '/' :: rest := by
  induction g with
  | nil => simp [dropFromSlash]
  | cons a as ih =>
      have ha : ¬ a = '/' := h a (List.mem_cons_self a as)
      show dropFromSlash (a :: (as ++ '/' :: rest)) = '/' :: rest
      simp only [dropFromSlash, if_neg ha]
      exact ih (fun c hc => h c (List.mem_cons_of_mem a hc))

theorem takeNonSlash_append_dropFromSlash (s : List Char) :
    takeNonSlash s ++ dropFromSlash s = s := by
  induction s with
  | nil => rfl
  | cons a as ih =>
      by_cases ha : a = '/'
      · simp [takeNonSlash, dropFromSlash, ha]
      · simp only [takeNonSlash, dropFromSlash, if_neg ha, List.cons_append]
        rw [ih]

theorem dropFromSlash_head (s : List Char) (c : Char) (r : List Char)
    (h : dropFromSlash s = c :: r) : c = '/' := by
  induction s with
  | nil => simp [dropFromSlash] at h
  | cons a as ih =>
      by_cases ha : a = '/'
      · rw [dropFromSlash, if_pos ha] at h
        cases h
        exact ha
      · rw [dropFromSlash, if_neg ha] at h
        exact ih h

theorem takeNonNewline_no_newline (g : List Char) (h : ∀ c ∈ g, c ≠ '\n') :
    takeNonNewline g = g := by
  induction g with
  | nil => rfl
  | cons a as ih =>
      have ha : ¬ a = '\n' := h a (List.mem_cons_self a as)
      simp only [takeNonNewline, if_neg ha]
      rw [ih (fun c hc => h c (List.mem_cons_of_mem a hc))]

theorem isPref_append_self (p t : List Char) : isPref p (p ++ t) = true := by
  induction p with
  | nil => rfl
  | cons a as ih => simp [isPref, ih]

theorem hasSub_of_isPref (p s : List Char) (h : isPref p s = true) :
    hasSub p s = true := by
  cases s with
  | nil =>
      cases p with
      | nil => rfl
      | cons a as => simp [isPref] at h
  | cons c rest => simp [hasSub, h]

theorem hasSub_cons_of (pat : List Char) (c : Char) (s : List Char)
    (h : hasSub pat s = true) : hasSub pat (c :: s) = true := by
  simp [hasSub, h]

theorem hasSub_append_left (pat pre s : List Char) (h : hasSub pat s = true) :
    hasSub pat (pre ++ s) = true := by
  induction pre with
  | nil => exact h
  | cons a as ih => exact hasSub_cons_of pat a (as ++ s) ih

/-! ## Lemmas about the search loop -/

theorem tryHere_not_g (c : Char) (rest : List Char) (h : ¬ c = 'g') :
    tryHere (c :: rest) = none := by
  have h1 : stripPref ghLit (c :: rest) = none := by
    simp only [ghLit, stripPref]
    rw [if_neg (fun e => h e.symm)]
  simp [tryHere, h1]

theorem searchFrom_cons_of_none (c : Char) (rest : List Char)
    (h : tryHere (c :: rest) = none) :
    searchFrom (c :: rest) = searchFrom rest := by
  simp [searchFrom, h]

theorem searchFrom_skip_append (pre W : List Char) (h : ∀ c ∈ pre, ¬ c = 'g') :
    searchFrom (pre ++ W) = searchFrom W := by
  induction pre with
  | nil => rfl
  | cons a as ih =>
      rw [List.cons_append,
        searchFrom_cons_of_none a (as ++ W)
          (tryHere_not_g a (as ++ W) (h a (List.mem_cons_self a as))),
        ih (fun c hc => h c (List.mem_cons_of_mem a hc))]

theorem tryHere_at_gh (W : List Char) : tryHere (ghLit ++ W) = matchAfterHost W := by
  simp [tryHere, stripPref_append_self]

theorem searchFrom_cons_found (c : Char) (rest : List Char)
    (r : List Char × List Char × Option (List Char × List Char))
    (h : tryHere (c :: rest) = some r) : searchFrom (c :: rest) = some r := by
  simp [searchFrom, h]

theorem searchFrom_found (W : List Char)
    (r : List Char × List Char × Option (List Char × List Char))
    (h : matchAfterHost W = some r) : searchFrom (ghLit ++ W) = some r := by
  have h1 : tryHere (ghLit ++ W) = some r := by rw [tryHere_at_gh, h]
  have hcons : ghLit ++ W = 'g' :: (['i', 't', 'h', 'u', 'b', '.', 'c', 'o', 'm', '/'] ++ W) := rfl
  rw [hcons] at h1
  rw [hcons]
  exact searchFrom_cons_found _ _ _ h1

end DocsGrabber

namespace DocsGrabber

/-! ## Evaluating the pattern on well-formed component strings -/

theorem treeOpt_nil : treeOpt [] = none := rfl

theorem matchAfterHost_plain (o r : List Char) (ho : o ≠ []) (ho2 : ∀ c ∈ o, c ≠ '/')
    (hr : r ≠ []) (hr2 : ∀ c ∈ r, c ≠ '/') :
    matchAfterHost (o ++ '/' :: r) = some (o, r, none) := by
  have h1 := takeNonSlash_append_cons o r ho2
  have h2 := dropFromSlash_append_cons o r ho2
  have h3 := takeNonSlash_no_slash r hr2
  have h4 := dropFromSlash_no_slash r hr2
  simp only [matchAfterHost, h1, h2, h3, h4]
  rw [if_neg ho, if_neg hr]
  simp [treeOpt_nil]

theorem matchAfterHost_tree (o r b s : List Char)
    (ho : o ≠ []) (ho2 : ∀ c ∈ o, c ≠ '/')
    (hr : r ≠ []) (hr2 : ∀ c ∈ r, c ≠ '/')
    (hb : b ≠ []) (hb2 : ∀ c ∈ b, c ≠ '/')
    (hs : s ≠ []) (hs2 : ∀ c ∈ s, c ≠ '\n') :
    matchAfterHost
      (o ++ '/' :: (r ++ '/' :: 't' :: 'r' :: 'e' :: 'e' :: '/' :: (b ++ '/' :: s)))
      = some (o, r, some (b, s)) := by
  have h1 := takeNonSlash_append_cons o
    (r ++ '/' :: 't' :: 'r' :: 'e' :: 'e' :: '/' :: (b ++ '/' :: s)) ho2
  have h2 := dropFromSlash_append_cons o
    (r ++ '/' :: 't' :: 'r' :: 'e' :: 'e' :: '/' :: (b ++ '/' :: s)) ho2
  have h3 := takeNonSlash_append_cons r
    ('t' :: 'r' :: 'e' :: 'e' :: '/' :: (b ++ '/' :: s)) hr2
  have h4 := dropFromSlash_append_cons r
    ('t' :: 'r' :: 'e' :: 'e' :: '/' :: (b ++ '/' :: s)) hr2
  have h5 : stripPref treeLit ('/' :: 't' :: 'r' :: 'e' :: 'e' :: '/' :: (b ++ '/' :: s))
      = some (b ++ '/' :: s) := by
    have he : ('/' :: 't' :: 'r' :: 'e' :: 'e' :: '/' :: (b ++ '/' :: s))
        = treeLit ++ (b ++ '/' :: s) := rfl
    rw [he, stripPref_append_self]
  have h6 := takeNonSlash_append_cons b s hb2
  have h7 := dropFromSlash_append_cons b s hb2
  have h8 := takeNonNewline_no_newline s hs2
  have htree : treeOpt ('/' :: 't' :: 'r' :: 'e' :: 'e' :: '/' :: (b ++ '/' :: s))
      = some (b, s) := by
    simp only [treeOpt, h5, h6, h7, h8]
    rw [if_neg hb, if_neg hs]
  simp only [matchAfterHost, h1, h2, h3, h4, htree]
  rw [if_neg ho, if_neg hr]

theorem matchAfterHost_some_shape (s0 g1 g2 : List Char)
    (opt : Option (List Char × List Char))
    (h : matchAfterHost s0 = some (g1, g2, opt)) :
    (∃ X, s0 = g1 ++ '/' :: (g2 ++ X)) ∧ g1 ≠ [] ∧ g2 ≠ [] := by
  by_cases h1 : takeNonSlash s0 = []
  · simp only [matchAfterHost, if_pos h1] at h
    exact absurd h (by simp)
  · simp only [matchAfterHost, if_neg h1] at h
    cases hd : dropFromSlash s0 with
    | nil => rw [hd] at h; simp at h
    | cons c r2 =>
        rw [hd] at h
        by_cases h2 : takeNonSlash r2 = []
        · simp only [if_pos h2] at h
          exact absurd h (by simp)
        · simp only [if_neg h2, Option.some.injEq, Prod.mk.injEq] at h
          obtain ⟨e1, e2, _⟩ := h
          have hc : c = '/' := dropFromSlash_head s0 c r2 hd
          refine ⟨⟨dropFromSlash r2, ?_⟩, ?_, ?_⟩
          · calc s0 = takeNonSlash s0 ++ dropFromSlash s0 :=
                  (takeNonSlash_append_dropFromSlash s0).symm
              _ = g1 ++ (c :: r2) := by rw [e1, hd]
              _ = g1 ++ '/' :: r2 := by rw [hc]
              _ = g1 ++ '/' :: (g2 ++ dropFromSlash r2) := by
                  rw [← e2, takeNonSlash_append_dropFromSlash]
          · rw [← e1]; exact h1
          · rw [← e2]; exact h2

theorem searchFrom_sub (l g1 g2 : List Char) (opt : Option (List Char × List Char))
    (h : searchFrom l = some (g1, g2, opt)) :
    hasSub (ghLit ++ (g1 ++ '/' :: g2)) l = true ∧ g1 ≠ [] ∧ g2 ≠ [] := by
  induction l with
  | nil => simp [searchFrom] at h
  | cons c rest ih =>
      cases ht : tryHere (c :: rest) with
      | none =>
          rw [searchFrom_cons_of_none c rest ht] at h
          obtain ⟨hs, hg1, hg2⟩ := ih h
          exact ⟨hasSub_cons_of _ _ _ hs, hg1, hg2⟩
      | some r0 =>
          rw [searchFrom_cons_found c rest r0 ht] at h
          have hr0 : r0 = (g1, g2, opt) := Option.some.inj h
          subst hr0
          cases hsp : stripPref ghLit (c :: rest) with
          | none =>
              simp only [tryHere, hsp] at ht
              exact absurd ht (by simp)
          | some rest2 =>
              simp only [tryHere, hsp] at ht
              obtain ⟨⟨X, hX⟩, hg1, hg2⟩ :=
                matchAfterHost_some_shape rest2 g1 g2 opt ht
              have hceq : c :: rest = ghLit ++ rest2 := stripPref_some _ _ _ hsp
              rw [hX] at hceq
              refine ⟨?_, hg1, hg2⟩
              rw [hceq]
              apply hasSub_of_isPref
              have hre : ghLit ++ (g1 ++ '/' :: (g2 ++ X))
                  = (ghLit ++ (g1 ++ '/' :: g2)) ++ X := by
                simp [List.append_assoc]
              rw [hre]
              exact isPref_append_self _ _

/-! ## Claim C2 -/

/-- C2 counterexample: the claim says a URL whose host merely contains
`github.com` as a substring must fail with InvalidURLFormat, but the
unanchored `re.search` of `run` accepts `https://evilgithub.com/a/b`
(and extracts owner `a`, repo `b` from it). -/
theorem C2_cex_substring_host_accepted :
    parseRepoURL "https://evilgithub.com/a/b" =
      some { owner := "a", repoName := "b", branch := "main", subPath := "" } := by
  decide

/-- C2 (amended): the parse step does not validate the scheme or the exact
host; it succeeds exactly when the URL contains a
`github.com/{owner}/{repo}` fragment somewhere, and on success that
fragment — with the nonempty owner and repository names it extracted — is
a contiguous substring of the URL. -/
theorem C2_parse_needs_github_fragment (url : String) (r : RepoRef)
    (h : parseRepoURL url = some r) :
    hasSubStr ("github.com/" ++ r.owner ++ "/" ++ r.repoName) url = true ∧
    r.owner ≠ "" ∧ r.repoName ≠ "" := by
  cases hs : searchFrom url.data with
  | none =>
      simp only [parseRepoURL, hs] at h
      exact absurd h (by simp)
  | some trip =>
      obtain ⟨g1, g2, opt⟩ := trip
      simp only [parseRepoURL, hs] at h
      have h' := Option.some.inj h
      obtain ⟨hsub, hg1, hg2⟩ := searchFrom_sub url.data g1 g2 opt hs
      refine ⟨?_, ?_, ?_⟩
      · unfold hasSubStr
        have hdata : ("github.com/" ++ r.owner ++ "/" ++ r.repoName).data
            = ghLit ++ (g1 ++ '/' :: g2) := by
          rw [← h']
          have hgh : "github.com/".data = ghLit := by decide
          have hsl : "/".data = ['/'] := by decide
          simp only [String.data_append, hgh, hsl]
          simp [ghLit, List.append_assoc]
        rw [hdata]
        exact hsub
      · rw [← h']
        intro he
        exact hg1 (congrArg String.data he)
      · rw [← h']
        intro he
        exact hg2 (congrArg String.data he)

/-- C2 witness: the amended statement evaluated at the accepted URL with
the substring host. -/
theorem C2_parse_needs_github_fragment_witness :
    hasSubStr ("github.com/" ++ "a" ++ "/" ++ "b") "https://evilgithub.com/a/b" = true ∧
    ("a" : String) ≠ "" ∧ ("b" : String) ≠ "" :=
  C2_parse_needs_github_fragment "https://evilgithub.com/a/b"
    { owner := "a", repoName := "b", branch := "main", subPath := "" } (by decide)

end DocsGrabber

namespace DocsGrabber

/-! ## Claim C3 -/

/-- C3: a URL of the plain form `https://github.com/{owner}/{repo}` parses
to branch `"main"` and an empty subpath, and a URL of the form
`https://github.com/{owner}/{repo}/tree/{branch}/{subpath}` parses to
that branch and the full, possibly slash-containing, subpath.  Owner,
repository and branch are nonempty slash-free segments and the subpath is
a nonempty newline-free string, as in any URL of the stated forms. -/
theorem C3_parse_components (owner repo branch sub : String)
    (h1 : owner.data ≠ []) (h2 : ∀ c ∈ owner.data, c ≠ '/')
    (h3 : repo.data ≠ []) (h4 : ∀ c ∈ repo.data, c ≠ '/')
    (h5 : branch.data ≠ []) (h6 : ∀ c ∈ branch.data, c ≠ '/')
    (h7 : sub.data ≠ []) (h8 : ∀ c ∈ sub.data, c ≠ '\n') :
    parseRepoURL ("https://github.com/" ++ owner ++ "/" ++ repo)
      = some { owner := owner, repoName := repo, branch := "main", subPath := "" } ∧
    parseRepoURL ("https://github.com/" ++ owner ++ "/" ++ repo ++
        "/tree/" ++ branch ++ "/" ++ sub)
      = some { owner := owner, repoName := repo, branch := branch, subPath := sub } := by
  have hlit : "https://github.com/".data
      = ['h', 't', 't', 'p', 's', ':', '/', '/'] ++ ghLit := by decide
  have hsl : "/".data = ['/'] := by decide
  have htr : "/tree/".data = ['/', 't', 'r', 'e', 'e', '/'] := by decide
  constructor
  · have hd1 : ("https://github.com/" ++ owner ++ "/" ++ repo).data
        = ['h', 't', 't', 'p', 's', ':', '/', '/'] ++
            (ghLit ++ (owner.data ++ '/' :: repo.data)) := by
      simp only [String.data_append, hlit, hsl]
      simp [ghLit, List.append_assoc]
    simp only [parseRepoURL, hd1,
      searchFrom_skip_append ['h', 't', 't', 'p', 's', ':', '/', '/'] _ (by decide),
      searchFrom_found _ _ (matchAfterHost_plain owner.data repo.data h1 h2 h3 h4)]
  · have hd2 : ("https://github.com/" ++ owner ++ "/" ++ repo ++
          "/tree/" ++ branch ++ "/" ++ sub).data
        = ['h', 't', 't', 'p', 's', ':', '/', '/'] ++
            (ghLit ++ (owner.data ++ '/' ::
              (repo.data ++ '/' :: 't' :: 'r' :: 'e' :: 'e' :: '/' ::
                (branch.data ++ '/' :: sub.data)))) := by
      simp only [String.data_append, hlit, hsl, htr]
      simp [ghLit, List.append_assoc]
    simp only [parseRepoURL, hd2,
      searchFrom_skip_append ['h', 't', 't', 'p', 's', ':', '/', '/'] _ (by decide),
      searchFrom_found _ _
        (matchAfterHost_tree owner.data repo.data branch.data sub.data
          h1 h2 h3 h4 h5 h6 h7 h8)]

/-- C3 witness: the two example URLs of the spec. -/
theorem C3_parse_components_witness :
    parseRepoURL "https://github.com/acme/widgets"
      = some { owner := "acme", repoName := "widgets", branch := "main", subPath := "" } ∧
    parseRepoURL "https://github.com/acme/widgets/tree/dev/docs/api"
      = some { owner := "acme", repoName := "widgets", branch := "dev", subPath := "docs/api" } := by
  have h := C3_parse_components "acme" "widgets" "dev" "docs/api"
    (by decide) (by decide) (by decide) (by decide)
    (by decide) (by decide) (by decide) (by decide)
  exact h

end DocsGrabber

namespace DocsGrabber

/-! ## Claim C4 -/

/-- C4 counterexample: `"build"` and `"BUILD"` are case variants of each
other (they lowercase identically), yet `is_binary_or_generated_file`
classifies them differently, because the generated-directory-pattern
check is applied to the unlowered path string. -/
theorem C4_cex_generated_check_case_sensitive :
    lowerStr "BUILD" = lowerStr "build" ∧
    is_binary_or_generated_file "build" = true ∧
    is_binary_or_generated_file "BUILD" = false := by
  decide

/-- C4 (amended): `is_markdown_file`, `is_code_file` and the
binary-extension component of `is_binary_or_generated_file` are
case-insensitive — any two path strings with the same lowercasing
classify identically — but the generated-directory-pattern component of
`is_binary_or_generated_file` matches the patterns case-sensitively. -/
theorem C4_extension_checks_case_insensitive (s t : String)
    (h : lowerStr s = lowerStr t) :
    is_markdown_file s = is_markdown_file t ∧
    is_code_file s = is_code_file t ∧
    binaryExtHit s = binaryExtHit t := by
  refine ⟨?_, ?_, ?_⟩ <;>
    simp only [is_markdown_file, is_code_file, binaryExtHit, h]

/-- C4 witness: the amended case-insensitivity statement evaluated at the
case variants `README.MD` and `readme.md`. -/
theorem C4_extension_checks_case_insensitive_witness :
    is_markdown_file "README.MD" = is_markdown_file "readme.md" ∧
    is_code_file "README.MD" = is_code_file "readme.md" ∧
    binaryExtHit "README.MD" = binaryExtHit "readme.md" :=
  C4_extension_checks_case_insensitive "README.MD" "readme.md" (by decide)

/-! ## Claim C5 -/

theorem strAppend_assoc (a b c : String) : (a ++ b) ++ c = a ++ (b ++ c) := by
  apply String.ext
  simp [String.data_append, List.append_assoc]

theorem joinSegs_cons_append (a : String) (l : List String) (n : String) :
    joinSegs (a :: (l ++ [n])) = a ++ "/" ++ joinSegs (l ++ [n]) := by
  cases l with
  | nil => simp [joinSegs]
  | cons b bs => rfl

theorem srcFile_split (root : String) (segs : List String) (n : String) :
    srcFile root segs n = root ++ "/" ++ joinSegs (segs ++ [n]) := by
  induction segs generalizing root with
  | nil => rfl
  | cons a rest ih =>
      show joinPath (joinAll root (a :: rest)) n = _
      have h1 : joinAll root (a :: rest) = joinAll (joinPath root a) rest := by
        simp [joinAll]
      rw [List.cons_append, joinSegs_cons_append]
      calc joinPath (joinAll root (a :: rest)) n
          = joinPath (joinAll (joinPath root a) rest) n := by rw [h1]
        _ = srcFile (joinPath root a) rest n := rfl
        _ = (root ++ "/" ++ a) ++ "/" ++ joinSegs (rest ++ [n]) := ih (joinPath root a)
        _ = root ++ "/" ++ (a ++ "/" ++ joinSegs (rest ++ [n])) := by
              simp only [strAppend_assoc]

/-- C5 counterexample: in LightFilter mode the same one-file tree, walked
from two temporary workspaces that differ only in name, yields different
inclusion decisions — the workspace name `tmpobj2` contains the generated
fragment `obj`, so `a.md` is dropped — contradicting the claim that the
decision depends only on the file's position within the fetched tree. -/
theorem C5_cex_workspace_name_changes_decision :
    (filter_files "light_filter" "/tmp/tmpclean1" "/ref" (fun _ => false)
        (.dir [("a.md", .file [97])])).copied = ["/ref/./a.md"] ∧
    (filter_files "light_filter" "/tmp/tmpobj2" "/ref" (fun _ => false)
        (.dir [("a.md", .file [97])])).copied = [] := by
  constructor <;> simp +decide [filter_files, walkSubs, copyFilesInDir, fileEntriesOf]

/-- C5 (amended): the LightFilter decision is computed from the absolute
source path (the workspace prefix included), not from the path relative
to the source root; a generated-directory fragment anywhere in the
relative path still excludes the file, because the relative path is a
contiguous substring of the absolute path. -/
theorem C5_relative_fragment_excludes (root : String) (segs : List String)
    (n p : String) (hp : p ∈ generated_patterns)
    (hsub : hasSubStr p (joinSegs (segs ++ [n])) = true) :
    shouldCopy "light_filter" root segs n = false := by
  have h0 : shouldCopy "light_filter" root segs n
      = !is_binary_or_generated_file (srcFile root segs n) := rfl
  rw [h0]
  suffices h : generatedHit (srcFile root segs n) = true by
    simp [is_binary_or_generated_file, h]
  unfold generatedHit
  rw [List.any_eq_true]
  refine ⟨p, hp, ?_⟩
  unfold hasSubStr at hsub ⊢
  rw [srcFile_split]
  have hsl : "/".data = ['/'] := by decide
  have hd : (root ++ "/" ++ joinSegs (segs ++ [n])).data
      = root.data ++ '/' :: (joinSegs (segs ++ [n])).data := by
    simp [String.data_append, hsl, List.append_assoc]
  rw [hd]
  exact hasSub_append_left _ _ _ (hasSub_cons_of _ _ _ hsub)

/-- C5 witness: a file below a dependency-cache directory is excluded by
the amended statement. -/
theorem C5_relative_fragment_excludes_witness :
    shouldCopy "light_filter" "/w" ["node_modules"] "c.js" = false :=
  C5_relative_fragment_excludes "/w" ["node_modules"] "c.js" "node_modules"
    (by decide) (by decide)

end DocsGrabber

namespace DocsGrabber

/-! ## Claim C6 -/

theorem copytreeIg_eq_pruneGit (es : List (String × FSTree)) :
    copytreeIg es = pruneGit es := by
  induction es using copytreeIg.induct with
  | case1 => simp [copytreeIg, pruneGit]
  | case2 t rest ih => cases t <;> simp [copytreeIg, pruneGit, ih]
  | case3 n rest h c ih => simp [copytreeIg, pruneGit, h, ih]
  | case4 n rest h es2 ih1 ih2 => simp [copytreeIg, pruneGit, h, ih1, ih2]

theorem copyNoneTop_eq_pruneGit (es : List (String × FSTree)) :
    copyNoneTop es = pruneGit es := by
  induction es using copyNoneTop.induct with
  | case1 => simp [copyNoneTop, pruneGit]
  | case2 t rest ih => cases t <;> simp [copyNoneTop, pruneGit, ih]
  | case3 n rest h c ih => simp [copyNoneTop, pruneGit, h, ih]
  | case4 n rest h es2 ih =>
      simp [copyNoneTop, pruneGit, h, ih, copytreeIg_eq_pruneGit]

/-- C6 counterexample: on a tree with a version-control directory nested
below `a/`, the `"none"`-mode copy is not the tree with only the root
`.git` removed — `shutil.copytree` is invoked with an ignore pattern that
drops `.git` at every depth, so `a/.git/config` is missing from the
destination. -/
theorem C6_cex_nested_git_excluded :
    copyNone (FSTree.dir
        [("a", FSTree.dir [(".git", FSTree.dir [("config", FSTree.file [99])])]),
         ("readme.md", FSTree.file [1])])
      ≠ Except.ok (FSTree.dir (removeRootGit
        [("a", FSTree.dir [(".git", FSTree.dir [("config", FSTree.file [99])])]),
         ("readme.md", FSTree.file [1])])) := by
  intro h
  have h2 : FSTree.dir (copyNoneTop
        [("a", FSTree.dir [(".git", FSTree.dir [("config", FSTree.file [99])])]),
         ("readme.md", FSTree.file [1])])
      = FSTree.dir (removeRootGit
        [("a", FSTree.dir [(".git", FSTree.dir [("config", FSTree.file [99])])]),
         ("readme.md", FSTree.file [1])]) := by
    simpa [copyNone] using h
  have h3 := congrArg (fun t => lookupPath t ["a", ".git", "config"]) h2
  simp [copyNoneTop, copytreeIg, removeRootGit, lookupPath, findEntry] at h3

/-- C6 (amended): with filterMode `None` the copy phase reproduces the
resolved source tree verbatim except that every entry named `.git` — at
the root and at any depth below — is excluded. -/
theorem C6_none_mode_copy (es : List (String × FSTree)) :
    copyNone (FSTree.dir es) = Except.ok (FSTree.dir (pruneGit es)) := by
  simp [copyNone, copyNoneTop_eq_pruneGit]

end DocsGrabber

namespace DocsGrabber

/-! ## Characterizing the walk: which files are copied, which dirs created -/

theorem filter_map_comm {α β : Type} (f : α → β) (p : β → Bool) (l : List α) :
    (l.map f).filter p = (l.filter (fun a => p (f a))).map f := by
  induction l with
  | nil => rfl
  | cons a t ih => by_cases h : p (f a) <;> simp [h, ih]

theorem copyFilesInDir_spec (mode srcRoot targetDir : String)
    (fails : String → Bool) (segs : List String)
    (fl : List (String × List Nat)) (st : CopyOut) :
    ((copyFilesInDir mode srcRoot targetDir fails segs fl st).copied
      = st.copied ++
        ((fl.filter (fun q => shouldCopy mode srcRoot segs q.1
            && !fails (srcFile srcRoot segs q.1))).map
          (fun q => tgtFile targetDir segs q.1))) ∧
    (copyFilesInDir mode srcRoot targetDir fails segs fl st).dirsMade
      = st.dirsMade := by
  induction fl generalizing st with
  | nil => simp [copyFilesInDir]
  | cons q rest ih =>
      obtain ⟨n, c⟩ := q
      by_cases h1 : shouldCopy mode srcRoot segs n = true
      · by_cases h2 : fails (srcFile srcRoot segs n) = true
        · simp [copyFilesInDir, h1, h2, ih]
        · simp only [Bool.not_eq_true] at h2
          simp [copyFilesInDir, h1, h2, ih, List.append_assoc]
      · simp only [Bool.not_eq_true] at h1
        simp [copyFilesInDir, h1, ih]

theorem walkSubs_spec (mode srcRoot targetDir : String) (fails : String → Bool)
    (segs : List String) (es : List (String × FSTree)) (st : CopyOut) :
    ((walkSubs mode srcRoot targetDir fails segs es st).copied
      = st.copied ++ ((allFilesSubs segs es).filter
          (keepFile mode srcRoot fails)).map
            (fun p => tgtFile targetDir p.1 p.2.1)) ∧
    (walkSubs mode srcRoot targetDir fails segs es st).dirsMade
      = st.dirsMade ++ allDirsSubs segs es := by
  induction segs, es, st using walkSubs.induct mode srcRoot targetDir fails with
  | case1 segs st => simp [walkSubs, allFilesSubs, allDirsSubs]
  | case2 segs n c rest st ih =>
      simp only [walkSubs, allFilesSubs, allDirsSubs]
      exact ih
  | case3 segs n es rest st st1 st2 st3 ihA ihB ihC =>
      unfold st3 st2 st1 at ihA ihC
      obtain ⟨hcA, hdA⟩ := ihA
      obtain ⟨hcC, hdC⟩ := ihC
      have hcf := copyFilesInDir_spec mode srcRoot targetDir fails (segs ++ [n])
        (fileEntriesOf es)
        { dest := mkdirp (segs ++ [n]) st.dest
          copied := st.copied
          dirsMade := st.dirsMade ++ [segs ++ [n]] }
      simp only [walkSubs, allFilesSubs, allDirsSubs]
      rw [hcC, hdC, hcA, hdA, hcf.1, hcf.2]
      constructor
      · simp [keepFile, List.filter_append, List.map_append, List.map_map,
          filter_map_comm, List.append_assoc]
      · simp [List.append_assoc]

theorem filter_files_spec (mode srcRoot targetDir : String)
    (fails : String → Bool) (es : List (String × FSTree)) :
    ((filter_files mode srcRoot targetDir fails (.dir es)).copied
      = ((allFiles (.dir es)).filter (keepFile mode srcRoot fails)).map
          (fun p => tgtFile targetDir p.1 p.2.1)) ∧
    (filter_files mode srcRoot targetDir fails (.dir es)).dirsMade
      = allDirs es := by
  have hcf := copyFilesInDir_spec mode srcRoot targetDir fails []
    (fileEntriesOf es) ⟨.dir [], [], [[]]⟩
  have hws := walkSubs_spec mode srcRoot targetDir fails [] es
    (copyFilesInDir mode srcRoot targetDir fails [] (fileEntriesOf es)
      ⟨.dir [], [], [[]]⟩)
  simp only [filter_files, allFiles, allDirs]
  rw [hws.1, hws.2, hcf.1, hcf.2]
  constructor
  · simp [keepFile, List.filter_append, List.map_append, List.map_map,
      filter_map_comm, List.append_assoc]
  · simp

/-- The decision chain of `filter_files` at mode `markdown_only`. -/
theorem shouldCopy_markdown (root : String) (segs : List String) (n : String) :
    shouldCopy "markdown_only" root segs n = is_markdown_file n := rfl

/-- The decision chain of `filter_files` at mode `exclude_code`. -/
theorem shouldCopy_exclude (root : String) (segs : List String) (n : String) :
    shouldCopy "exclude_code" root segs n = !is_code_file n := rfl

/-- The decision chain of `filter_files` at mode `light_filter`. -/
theorem shouldCopy_light (root : String) (segs : List String) (n : String) :
    shouldCopy "light_filter" root segs n
      = !is_binary_or_generated_file (srcFile root segs n) := rfl

end DocsGrabber

namespace DocsGrabber

/-! ## Claim C7 -/

/-- C7: the per-file filter policy — MarkdownOnly copies exactly the files
whose name `is_markdown_file` accepts, ExcludeCode exactly those
`is_code_file` rejects, LightFilter exactly those
`is_binary_or_generated_file` rejects on the source path the walk hands
it; and on the spec's two example trees MarkdownOnly copies exactly
`{a.md, c.mdx}` and ExcludeCode exactly `{b.md}`. -/
theorem C7_filter_policy_table :
    (∀ (root target : String) (es : List (String × FSTree)),
      (filter_files "markdown_only" root target (fun _ => false) (.dir es)).copied
        = ((allFiles (.dir es)).filter (fun p => is_markdown_file p.2.1)).map
            (fun p => tgtFile target p.1 p.2.1)) ∧
    (∀ (root target : String) (es : List (String × FSTree)),
      (filter_files "exclude_code" root target (fun _ => false) (.dir es)).copied
        = ((allFiles (.dir es)).filter (fun p => !is_code_file p.2.1)).map
            (fun p => tgtFile target p.1 p.2.1)) ∧
    (∀ (root target : String) (es : List (String × FSTree)),
      (filter_files "light_filter" root target (fun _ => false) (.dir es)).copied
        = ((allFiles (.dir es)).filter
            (fun p => !is_binary_or_generated_file (srcFile root p.1 p.2.1))).map
            (fun p => tgtFile target p.1 p.2.1)) ∧
    (filter_files "markdown_only" "/src" "/ref" (fun _ => false)
        (.dir [("a.md", .file [1]), ("b.py", .file [2]),
               ("c.mdx", .file [3]), ("d.txt", .file [4])])).copied
      = ["/ref/./a.md", "/ref/./c.mdx"] ∧
    (filter_files "exclude_code" "/src" "/ref" (fun _ => false)
        (.dir [("a.py", .file [1]), ("b.md", .file [2]), ("c.exe", .file [3])])).copied
      = ["/ref/./b.md"] := by
  refine ⟨?_, ?_, ?_, ?_, ?_⟩
  · intro root target es
    rw [(filter_files_spec "markdown_only" root target (fun _ => false) es).1]
    have hk : keepFile "markdown_only" root (fun _ => false)
        = fun p => is_markdown_file p.2.1 := by
      funext p
      simp [keepFile, shouldCopy_markdown]
    rw [hk]
  · intro root target es
    rw [(filter_files_spec "exclude_code" root target (fun _ => false) es).1]
    have hk : keepFile "exclude_code" root (fun _ => false)
        = fun p => !is_code_file p.2.1 := by
      funext p
      simp [keepFile, shouldCopy_exclude]
    rw [hk]
  · intro root target es
    rw [(filter_files_spec "light_filter" root target (fun _ => false) es).1]
    have hk : keepFile "light_filter" root (fun _ => false)
        = fun p => !is_binary_or_generated_file (srcFile root p.1 p.2.1) := by
      funext p
      simp [keepFile, shouldCopy_light]
    rw [hk]
  · simp +decide [filter_files, walkSubs, copyFilesInDir, fileEntriesOf]
  · simp +decide [filter_files, walkSubs, copyFilesInDir, fileEntriesOf]

/-! ## Claim C10 -/

/-- C10: in every mode `filter_files` handles, the walk issues a
destination `os.makedirs` for every directory of the source tree — the
root, version-control metadata directories and directories whose files
all fail the filter included — and files below `.git` are subject only to
the per-file predicate: under ExcludeCode the non-code file `.git/HEAD`
is copied while `a.py` is not, and both the root and `.git` destination
directories are created. -/
theorem C10_walk_creates_every_directory :
    (∀ (mode root target : String) (fails : String → Bool)
        (es : List (String × FSTree)),
      (filter_files mode root target fails (.dir es)).dirsMade = allDirs es) ∧
    (filter_files "exclude_code" "/src" "/ref" (fun _ => false)
        (.dir [(".git", .dir [("HEAD", .file [104])]), ("a.py", .file [1])])).copied
      = ["/ref/.git/HEAD"] ∧
    (filter_files "exclude_code" "/src" "/ref" (fun _ => false)
        (.dir [(".git", .dir [("HEAD", .file [104])]), ("a.py", .file [1])])).dirsMade
      = [[], [".git"]] := by
  refine ⟨?_, ?_, ?_⟩
  · intro mode root target fails es
    exact (filter_files_spec mode root target fails es).2
  · simp +decide [filter_files, walkSubs, copyFilesInDir, fileEntriesOf]
  · simp +decide [filter_files, walkSubs, copyFilesInDir, fileEntriesOf]

end DocsGrabber

namespace DocsGrabber

/-! ## Claim C1 -/

/-- C1: the temporary clone workspace is not released on the failure exits
of `run`.  On the InvalidURLFormat exit (first conjunct) and on the
CloneFailed exit (second conjunct) the run reports failure with
`tempDeleted = false`: the only `shutil.rmtree(temp_dir)` in the source
sits on the success path. -/
theorem C1_temp_workspace_leaked_on_failure :
    ((run "https://example.com/acme/widgets" "/t" "none"
        ⟨none, Except.ok (FSTree.dir []), fun _ => false, true, "/tmp/w"⟩).success
          = false ∧
     (run "https://example.com/acme/widgets" "/t" "none"
        ⟨none, Except.ok (FSTree.dir []), fun _ => false, true, "/tmp/w"⟩).tempDeleted
          = false) ∧
    ((run "https://github.com/acme/widgets" "/t" "none"
        ⟨none, Except.error "fatal: not found", fun _ => false, true, "/tmp/w"⟩).success
          = false ∧
     (run "https://github.com/acme/widgets" "/t" "none"
        ⟨none, Except.error "fatal: not found", fun _ => false, true, "/tmp/w"⟩).tempDeleted
          = false) := by
  decide

/-! ## Claim C8 -/

/-- C8: in the three walking filter modes, per-file copy failures are
non-fatal: for every failure oracle the run still succeeds, the manifest
is still written, and `copied_files` contains exactly the files the mode
accepts minus those whose copy failed — no failure aborts the remaining
files. -/
theorem C8_per_file_failures_nonfatal (url targetPath mode : String)
    (env : RunEnv) (ref : RepoRef) (es : List (String × FSTree))
    (hmode : mode = "markdown_only" ∨ mode = "exclude_code" ∨ mode = "light_filter")
    (hparse : parseRepoURL url = some ref)
    (hclone : env.cloneResult = Except.ok (FSTree.dir es))
    (hsub : ref.subPath = "")
    (hman : env.manifestOk = true) :
    (run url targetPath mode env).success = true ∧
    (run url targetPath mode env).manifestWritten = true ∧
    (run url targetPath mode env).copiedPaths
      = ((allFiles (FSTree.dir es)).filter (keepFile mode env.tempDir env.fails)).map
          (fun p => tgtFile (joinPath targetPath "reference") p.1 p.2.1) := by
  have hnone : ¬ mode = "none" := by
    rcases hmode with h | h | h <;> subst h <;> decide
  have hres : resolveSource ref (FSTree.dir es) env.tempDir
      = some (FSTree.dir es, env.tempDir) := by
    simp [resolveSource, hsub]
  simp only [run, hparse, hclone, hres, if_neg hnone, hman, if_true]
  refine ⟨trivial, trivial, ?_⟩
  exact (filter_files_spec mode env.tempDir (joinPath targetPath "reference")
    env.fails es).1

/-- C8 witness: a clone with `a.md` and `b.md`, markdown mode, with the
copy of `b.md` failing; the run still succeeds, writes the manifest, and
copies exactly the surviving accepted files. -/
theorem C8_per_file_failures_nonfatal_witness :
    (run "https://github.com/acme/widgets" "/t" "markdown_only"
        ⟨none, Except.ok (FSTree.dir [("a.md", .file [1]), ("b.md", .file [2])]),
         (fun s => s == "/tmp/w/b.md"), true, "/tmp/w"⟩).success = true ∧
    (run "https://github.com/acme/widgets" "/t" "markdown_only"
        ⟨none, Except.ok (FSTree.dir [("a.md", .file [1]), ("b.md", .file [2])]),
         (fun s => s == "/tmp/w/b.md"), true, "/tmp/w"⟩).manifestWritten = true ∧
    (run "https://github.com/acme/widgets" "/t" "markdown_only"
        ⟨none, Except.ok (FSTree.dir [("a.md", .file [1]), ("b.md", .file [2])]),
         (fun s => s == "/tmp/w/b.md"), true, "/tmp/w"⟩).copiedPaths
      = ((allFiles (FSTree.dir [("a.md", .file [1]), ("b.md", .file [2])])).filter
          (keepFile "markdown_only" "/tmp/w" (fun s => s == "/tmp/w/b.md"))).map
          (fun p => tgtFile (joinPath "/t" "reference") p.1 p.2.1) :=
  C8_per_file_failures_nonfatal "https://github.com/acme/widgets" "/t"
    "markdown_only"
    ⟨none, Except.ok (FSTree.dir [("a.md", .file [1]), ("b.md", .file [2])]),
     (fun s => s == "/tmp/w/b.md"), true, "/tmp/w"⟩
    { owner := "acme", repoName := "widgets", branch := "main", subPath := "" }
    [("a.md", .file [1]), ("b.md", .file [2])]
    (Or.inl rfl) (by decide) rfl rfl rfl

/-! ## Claim C9 -/

/-- C9: re-running the extraction with identical inputs (same URL, target,
filter mode, fetched tree, failure oracle and manifest outcome) against
the destination the first run left behind produces an identical final
`reference` tree: the destination is deleted and recreated empty at the
start of each run, so the prior content never flows into the result. -/
theorem C9_rerun_produces_identical_reference (url targetPath mode : String)
    (env : RunEnv) :
    (run url targetPath mode
        { env with prior := (run url targetPath mode env).refDir }).refDir
      = (run url targetPath mode env).refDir := by
  cases hp : parseRepoURL url with
  | none => simp [run, hp]
  | some ref =>
      cases hc : env.cloneResult with
      | error e => simp [run, hp, hc]
      | ok tree =>
          cases hr : resolveSource ref tree env.tempDir with
          | none => simp [run, hp, hc, hr]
          | some pr =>
              obtain ⟨srcTree, srcPath⟩ := pr
              by_cases hm : mode = "none"
              · subst hm
                cases hcn : copyNone srcTree with
                | error e => simp [run, hp, hc, hr, hcn]
                | ok d =>
                    cases hmo : env.manifestOk <;>
                      simp [run, hp, hc, hr, hcn, hmo]
              · cases hmo : env.manifestOk <;>
                  simp [run, hp, hc, hr, hm, hmo]

end DocsGrabber
